import Mathlib

/-!
# Verification of `stylelint-lsp` core algorithms

Shallow embedding of the pure logic of `bmatcuk/stylelint-lsp`:

* `src/validate.ts` — `autoFix`'s diff-merge loop turning `fast-diff` spans
  into a list of text edits;
* `src/buffered-message-queue.ts` — the `BufferedMessageQueue` class
  (`next`, `popQueue`, enqueue paths);
* `src/settings.ts` — the failure-memoising `lintFunc` and
  `clearFailedDocuments`;
* `src/commands.ts` — `getIndent`.

Strings are modelled as `List Char`; JavaScript string offsets become `Nat`.
-/

namespace StylelintLsp

/-! ## The diff-merge loop of `autoFix` (src/validate.ts) -/

/-- The three span kinds produced by the `fast-diff` primitive
(`fastDiff.EQUAL` / `fastDiff.DELETE` / `fastDiff.INSERT`). -/
inductive DiffAction where
  | equal
  | delete
  | insert
deriving DecidableEq, Repr

/-- One `[action, str]` pair of a `fast-diff` result. -/
abbrev Span := DiffAction × List Char

/-- The `Change` interface of src/validate.ts (lines 98-102): an edit replacing
offsets `[start, end)` with `newText`.  The source field `end` is renamed
`endOffset` because `end` is a Lean keyword. -/
structure Change where
  start : Nat
  endOffset : Nat
  newText : List Char
deriving DecidableEq, Repr

/-- One iteration of the `fastDiff(...).forEach` loop of `autoFix`
(src/validate.ts lines 121-145).  The accumulator holds the `changes` array in
reverse order (most recently pushed change in head position, which is the
source's `lastChange`, since every push assigns `lastChange` to the pushed
object and mutations of `lastChange` alias the array slot) together with the
cursor `cur`. -/
def mergeStep (st : List Change × Nat) (sp : Span) : List Change × Nat :=
  let (revChanges, cur) := st
  match sp.1 with
  | .equal => (revChanges, cur + sp.2.length)
  | .delete =>
    match revChanges with
    | lastChange :: rest =>
      if lastChange.endOffset = cur then
        -- lastChange was an insert at the same position: combine
        ({ lastChange with endOffset := lastChange.endOffset + sp.2.length } :: rest,
          cur + sp.2.length)
      else
        (⟨cur, cur + sp.2.length, []⟩ :: lastChange :: rest, cur + sp.2.length)
    | [] => ([⟨cur, cur + sp.2.length, []⟩], cur + sp.2.length)
  | .insert =>
    match revChanges with
    | lastChange :: rest =>
      if lastChange.endOffset = cur then
        -- lastChange was a delete at the same position: combine
        ({ lastChange with newText := lastChange.newText ++ sp.2 } :: rest, cur)
      else
        (⟨cur, cur, sp.2⟩ :: lastChange :: rest, cur)
    | [] => ([⟨cur, cur, sp.2⟩], cur)

/-- The complete merge loop of `autoFix`: fold `mergeStep` over the diff spans
starting from an empty `changes` array and cursor 0, then restore source
order. -/
def mergeChanges (spans : List Span) : List Change :=
  ((spans.foldl mergeStep ([], 0)).1).reverse

/-- Longest common prefix of two character lists. -/
def commonPrefix : List Char → List Char → List Char
  | a :: as, b :: bs => if a = b then a :: commonPrefix as bs else []
  | _, _ => []

/-- Longest common suffix of two character lists. -/
def commonSuffix (a b : List Char) : List Char :=
  (commonPrefix a.reverse b.reverse).reverse

/-- Modelled from the spec: the external `fast-diff` primitive (the repository
only calls it; its implementation is not part of src/).  Captured behaviour:
identical inputs yield a single equal span (none for empty input); otherwise
the common prefix and suffix are split off as equal spans and the remainder
becomes a delete span for the old text and/or an insert span for the new
text.  The cases the claims rely on — equal inputs, and an empty side — have
exactly the documented `fast-diff` output. -/
def fastDiff (a b : List Char) : List Span :=
  if a = b then
    if a.isEmpty then [] else [(.equal, a)]
  else
    let p := commonPrefix a b
    let a1 := a.drop p.length
    let b1 := b.drop p.length
    let s := commonSuffix a1 b1
    let a2 := a1.take (a1.length - s.length)
    let b2 := b1.take (b1.length - s.length)
    (if p.isEmpty then [] else [(.equal, p)]) ++
      (if a2.isEmpty then [] else [(.delete, a2)]) ++
      (if b2.isEmpty then [] else [(.insert, b2)]) ++
      (if s.isEmpty then [] else [(.equal, s)])

/-- Function `autoFix` of src/validate.ts (lines 104-154), as a function of the linter
outcome: the fixed `output` and the first result's `ignored` flag, with the
diff primitive passed as a parameter.  If `result.ignored` holds it returns
`[]` without consulting the diff; otherwise it runs the merge loop on the diff
of the original text against the output.  (The final `changes.map` to
`TextEdit`s only converts each offset pair through `document.positionAt`; the
edits are represented here by their offset form `Change`.) -/
def autoFix (diff : List Char → List Char → List Span)
    (originalText output : List Char) (ignored : Bool) : List Change :=
  if ignored then []
  else mergeChanges (diff originalText output)

/-! ### Invariants of the merge loop -/

/-- Invariant of the `forEach` accumulator: every change is well formed
(`start ≤ end`), the (reversed) changes are strictly separated, and the most
recently pushed change never extends past the cursor. -/
structure MergeInv (st : List Change × Nat) : Prop where
  wf : ∀ c ∈ st.1, c.start ≤ c.endOffset
  sep : st.1.Chain' fun a b => b.endOffset < a.start
  lastLe : ∀ c, st.1.head? = some c → c.endOffset ≤ st.2

/-! ## The buffered message queue (src/buffered-message-queue.ts)

The class state and its three private operations `next`, `popQueue` and the
enqueue paths are embedded as explicit state passing.  Handler callbacks and
version lenses are model parameters (arbitrary Lean functions); the
`resolve`/`reject` callbacks of a `Request` are not stored in the message but
reported in a `StepOutcome`, which records exactly which callback a drain step
invoked.  `P` is the handler param type, `V` the request return type, `E` the
handler error type. -/

/-- Model of the `ResponseError` constructed by `popQueue`:
`new ResponseError(ErrorCodes.RequestCancelled, "Request was cancelled.")`. -/
structure ResponseErrorModel where
  code : Int
  message : String
deriving DecidableEq, Repr

/-- Code `ErrorCodes.RequestCancelled` of `vscode-languageserver`. -/
def requestCancelledCode : Int := -32800

/-- The rejection value built at src/buffered-message-queue.ts lines 242-247
and 260-265. -/
def requestCancelledError : ResponseErrorModel :=
  ⟨requestCancelledCode, "Request was cancelled."⟩

/-- A queued `Request` (src/buffered-message-queue.ts lines 27-46); the
`token` field is `none` when absent, otherwise `some` of its
`isCancellationRequested` flag.  The `resolve`/`reject` callbacks are
represented by the drain outcome instead of being stored. -/
structure Request (P : Type) where
  method : String
  param : P
  documentVersion : Int
  token : Option Bool
deriving DecidableEq, Repr

/-- A queued `Notification` (src/buffered-message-queue.ts lines 58-68). -/
structure Notification (P : Type) where
  method : String
  param : P
  documentVersion : Int
deriving DecidableEq, Repr

/-- A queued `Message` is either a `Request` or a `Notification`
(src/buffered-message-queue.ts lines 70-73).  `isRequest` is the constructor
distinction. -/
inductive Message (P : Type) where
  | request (r : Request P)
  | notification (n : Notification P)
deriving DecidableEq, Repr

/-- What a request handler invocation produces: a plain (non-Thenable) value,
or a Thenable that later settles with a value or an error
(src/buffered-message-queue.ts lines 270-282). -/
inductive HandlerOutcome (V E : Type) where
  | sync (value : V)
  | thenableOk (value : V)
  | thenableErr (error : E)
deriving DecidableEq, Repr

/-- The single settlement a drain step delivers to a `Request`'s
resolve/reject pair (or `Option.none` in `StepOutcome.completion` when neither
callback is ever invoked). -/
inductive Completion (V E : Type) where
  | resolved (value : V)
  | rejectedResponseError (e : ResponseErrorModel)
  | rejectedHandlerError (error : E)
deriving DecidableEq, Repr

/-- Observable outcome of one `popQueue` step: whether the registered handler
was invoked, and which completion (if any) the head request received. -/
structure StepOutcome (V E : Type) where
  handlerInvoked : Bool
  completion : Option (Completion V E)
deriving DecidableEq, Repr

/-- A `RequestHandlerMap` entry (src/buffered-message-queue.ts lines 86-98):
the handler receives `(message.param, message.token)`. -/
structure RequestRegistration (P V E : Type) where
  handler : P → Option Bool → HandlerOutcome V E
  versionLens : P → Int

/-- A `NotificationHandlerMap` entry (src/buffered-message-queue.ts lines
100-112).  The notification handler's effect is outside the model; only its
invocation is observable. -/
structure NotificationRegistration (P : Type) where
  versionLens : P → Int

/-- The private state of a `BufferedMessageQueue` (src/buffered-message-queue.ts
lines 119-125): the message array, both handler maps (as association lists)
and the `timer` slot (`timerSet`).  `armCount` counts how many times
`setImmediate` has been called, to make "exactly one drain callback armed"
observable. -/
structure QueueState (P V E : Type) where
  queue : List (Message P)
  requestHandlers : List (String × RequestRegistration P V E)
  notificationHandlers : List (String × NotificationRegistration P)
  timerSet : Bool
  armCount : Nat

/-- Method `next()` (src/buffered-message-queue.ts lines 220-229): no-op when a timer
is already set or the queue is empty; otherwise arm exactly one
`setImmediate` callback. -/
def next {P V E : Type} (s : QueueState P V E) : QueueState P V E :=
  if s.timerSet || s.queue.isEmpty then s
  else { s with timerSet := true, armCount := s.armCount + 1 }

/-- An outcome where nothing observable happened. -/
def silentOutcome {V E : Type} : StepOutcome V E :=
  { handlerInvoked := false, completion := none }

/-- The outcome of rejecting the head request with the `RequestCancelled`
`ResponseError` (no handler invoked). -/
def rejectedCancelledOutcome {V E : Type} : StepOutcome V E :=
  { handlerInvoked := false,
    completion := some (.rejectedResponseError requestCancelledError) }

/-- Method `popQueue()` (src/buffered-message-queue.ts lines 232-302), returning the
successor state together with the step's observable outcome.  The early
`return` statements of the source (cancelled token, missing registration,
stale version) skip the final `this.next()`; only the handler-invoked paths
fall through to it. -/
def popQueue {P V E : Type} (s : QueueState P V E) :
    QueueState P V E × StepOutcome V E :=
  match s.queue with
  | [] => (s, silentOutcome)
  | msg :: rest =>
    let s1 := { s with queue := rest }
    match msg with
    | .request req =>
      if req.token = some true then
        -- Request was cancelled before we could process it
        (s1, { handlerInvoked := false,
               completion := some (.rejectedResponseError requestCancelledError) })
      else
        match s1.requestHandlers.lookup req.method with
        | none => (s1, silentOutcome)
        | some reg =>
          if req.documentVersion ≠ reg.versionLens req.param then
            -- Document has changed since the Request was made; cancel
            (s1, { handlerInvoked := false,
                   completion := some (.rejectedResponseError requestCancelledError) })
          else
            let c := match reg.handler req.param req.token with
              | .sync v => Completion.resolved v
              | .thenableOk v => Completion.resolved v
              | .thenableErr e => Completion.rejectedHandlerError (E := E) e
            (next s1, { handlerInvoked := true, completion := some c })
    | .notification n =>
      match s1.notificationHandlers.lookup n.method with
      | none => (s1, silentOutcome)
      | some reg =>
        if n.documentVersion ≠ reg.versionLens n.param then
          -- Document has changed since the Notification was made; cancel
          (s1, silentOutcome)
        else
          (next s1, { handlerInvoked := true, completion := none })

/-- The enqueue path shared by the `connection.onRequest` callback
(src/buffered-message-queue.ts lines 150-164) and `addNotification` (lines
203-217): push onto the queue, then `this.next()`. -/
def enqueue {P V E : Type} (s : QueueState P V E) (m : Message P) :
    QueueState P V E :=
  next { s with queue := s.queue ++ [m] }

/-- The `setImmediate` callback armed by `next()` (src/buffered-message-queue.ts
lines 225-228): clear the timer slot, then run `popQueue`.  Nothing happens if
no callback is pending. -/
def fireTimer {P V E : Type} (s : QueueState P V E) :
    QueueState P V E × StepOutcome V E :=
  if s.timerSet then popQueue { s with timerSet := false }
  else (s, silentOutcome)

/-- An event of a queue history: an enqueue arriving from the connection, or
the pending drain callback firing. -/
inductive Op (P : Type) where
  | enqueue (m : Message P)
  | drain

/-- Run a history of events, collecting the drained messages (the messages
`queue.shift()` removes) in the order their execute/reject/drop decision is
made. -/
def runOps {P V E : Type} (s : QueueState P V E) :
    List (Op P) → QueueState P V E × List (Message P)
  | [] => (s, [])
  | .enqueue m :: ops => runOps (enqueue s m) ops
  | .drain :: ops =>
    if s.timerSet then
      let drained := s.queue.head?
      let res := runOps (popQueue { s with timerSet := false }).1 ops
      (res.1, drained.toList ++ res.2)
    else
      runOps s ops

/-- The messages a history enqueues, in arrival order. -/
def enqueuedMessages {P : Type} : List (Op P) → List (Message P)
  | [] => []
  | .enqueue m :: ops => m :: enqueuedMessages ops
  | .drain :: ops => enqueuedMessages ops

/-! ## Settings: failure-memoised linting (src/settings.ts) -/

/-- The `failedDocuments` set of the `Settings` class (src/settings.ts line
63), as a list of uris. -/
structure SettingsState where
  failedDocuments : List String
deriving DecidableEq, Repr

/-- What the underlying `stylelint.lint(...)` call would do: return a result
or throw. -/
inductive LinterBehavior (R : Type) where
  | ok (result : R)
  | throws (error : String)
deriving DecidableEq, Repr

/-- The shape of a `LinterResult` as far as the server inspects it: the
`errored` flag, the fixed `output` text, and the per-file results (each
represented by its `ignored` flag). -/
structure LintResultModel where
  errored : Bool
  output : List Char
  results : List Bool
deriving DecidableEq, Repr

/-- The fallback result built at src/settings.ts lines 153-157:
`{ errored: true, output: "", results: [] }`. -/
def emptyLintResult : LintResultModel :=
  { errored := true, output := [], results := [] }

/-- Everything one call of the function returned by `lintFunc` does: the
successor `failedDocuments` state, the returned result, whether
`stylelint.lint` was actually invoked, and whether `console.error` logged. -/
structure LintCall where
  state : SettingsState
  result : LintResultModel
  linterCalled : Bool
  logged : Bool
deriving DecidableEq, Repr

/-- One invocation of the closure returned by `lintFunc` (src/settings.ts
lines 137-159): skip linting if the uri has failed in the past; otherwise call
the linter, and on a throw log the error, record the uri as failed, and fall
through to the empty result. -/
def lintFunc (uri : String) (st : SettingsState)
    (behavior : LinterBehavior LintResultModel) : LintCall :=
  if uri ∈ st.failedDocuments then
    { state := st, result := emptyLintResult, linterCalled := false, logged := false }
  else
    match behavior with
    | .ok r =>
      { state := st, result := r, linterCalled := true, logged := false }
    | .throws _ =>
      -- log error and disable stylelint for this uri
      { state := { failedDocuments := uri :: st.failedDocuments },
        result := emptyLintResult, linterCalled := true, logged := true }

/-- The call record of a short-circuited lint attempt: the empty result,
no linter invocation, no logging, state unchanged. -/
def skippedLintCall (st : SettingsState) : LintCall :=
  { state := st, result := emptyLintResult, linterCalled := false, logged := false }

/-- Method `clearFailedDocuments()` (src/settings.ts lines 207-209). -/
def clearFailedDocuments (_st : SettingsState) : SettingsState :=
  { failedDocuments := [] }

/-! ## `getIndent` (src/commands.ts lines 46-48) -/

/-- JavaScript's `\s` character class (the whitespace set of
`RegExp`): space, `\t\n\v\f\r`, NBSP, OGHAM SPACE MARK, the U+2000-U+200A
range, LINE/PARAGRAPH SEPARATOR, NARROW NBSP, MMSP, IDEOGRAPHIC SPACE and
BOM. -/
def isJsWhitespace (c : Char) : Bool :=
  c = ' ' || c = '\t' || c = '\n' || c = '\r' || c.val = 0x0B || c.val = 0x0C ||
    c.val = 0xA0 || c.val = 0x1680 || (0x2000 ≤ c.val && c.val ≤ 0x200A) ||
    c.val = 0x2028 || c.val = 0x2029 || c.val = 0x202F || c.val = 0x205F ||
    c.val = 0x3000 || c.val = 0xFEFF

/-- Result of `line.match(/^\s*/)`: anchored at the start, `\s*` greedily takes the
longest leading run of whitespace and accepts the empty match, so the result
is `some` for every input. -/
def jsMatchLeadingWhitespace (line : List Char) : Option (List Char) :=
  some (line.takeWhile isJsWhitespace)

/-- Function `getIndent` (src/commands.ts lines 46-48): the first capture of the match;
the source's non-null cast `as [string]` corresponds to defaulting an
(actually impossible) `none`. -/
def getIndent (line : List Char) : List Char :=
  (jsMatchLeadingWhitespace line).getD []

/-! ## Concrete queue instances used to exercise the theorems -/

/-- An example request registration: registered document version 1, handler
immediately returning `0`. -/
def exampleReg : RequestRegistration Int Int String :=
  { handler := fun _ _ => .sync 0, versionLens := fun _ => 1 }

/-- An example notification registration with registered document version 1. -/
def exampleNotifReg : NotificationRegistration Int :=
  { versionLens := fun _ => 1 }

/-- A queue whose head request has a cancelled token and a current version,
with a notification waiting behind it. -/
def cancelledHeadState : QueueState Int Int String :=
  { queue := [Message.request ⟨"m", 0, 1, some true⟩,
      Message.notification ⟨"n", 0, 1⟩],
    requestHandlers := [("m", exampleReg)],
    notificationHandlers := [("n", exampleNotifReg)],
    timerSet := false, armCount := 0 }

/-- A queue whose head request addresses a method with no registration. -/
def unregisteredHeadState : QueueState Int Int String :=
  { queue := [Message.request ⟨"m", 0, 1, none⟩],
    requestHandlers := [], notificationHandlers := [],
    timerSet := false, armCount := 0 }

/-- A queue whose head request captured version 0 while the registered lens
now reports 1. -/
def staleHeadState : QueueState Int Int String :=
  { queue := [Message.request ⟨"m", 0, 0, none⟩],
    requestHandlers := [("m", exampleReg)],
    notificationHandlers := [], timerSet := false, armCount := 0 }

/-- A queue whose head notification captured version 0 while the registered
lens now reports 1. -/
def staleNotificationState : QueueState Int Int String :=
  { queue := [Message.notification ⟨"n", 0, 0⟩],
    requestHandlers := [], notificationHandlers := [("n", exampleNotifReg)],
    timerSet := false, armCount := 0 }

/-! ## Helper lemmas -/

theorem mergeInv_step (st : List Change × Nat) (sp : Span) (h : MergeInv st) :
    MergeInv (mergeStep st sp) := by
  obtain ⟨wf, sep, lastLe⟩ := h
  obtain ⟨cs, cur⟩ := st
  obtain ⟨act, str⟩ := sp
  cases act with
  | equal =>
    refine ⟨wf, sep, fun c hc => ?_⟩
    have := lastLe c hc
    show c.endOffset ≤ cur + str.length
    omega
  | delete =>
    cases cs with
    | nil =>
      refine ⟨?_, ?_, ?_⟩
      · intro c hc
        simp only [mergeStep, List.mem_singleton] at hc
        subst hc
        show cur ≤ cur + str.length
        omega
      · simp [mergeStep]
      · intro c hc
        simp only [mergeStep, List.head?_cons, Option.some.injEq] at hc
        subst hc
        show cur + str.length ≤ cur + str.length
        omega
    | cons lastChange rest =>
      by_cases hend : lastChange.endOffset = cur
      · have hstep : mergeStep (lastChange :: rest, cur) (DiffAction.delete, str)
            = ({ lastChange with endOffset := lastChange.endOffset + str.length } :: rest,
                cur + str.length) := by
          simp [mergeStep, hend]
        rw [hstep]
        refine ⟨?_, ?_, ?_⟩
        · intro c hc
          rcases List.mem_cons.mp hc with h | h
          · subst h
            have h1 := wf lastChange (by simp)
            show lastChange.start ≤ lastChange.endOffset + str.length
            omega
          · exact wf c (by simp [h])
        · rw [List.chain'_cons'] at sep ⊢
          exact ⟨fun y hy => sep.1 y hy, sep.2⟩
        · intro c hc
          simp only [List.head?_cons, Option.some.injEq] at hc
          subst hc
          show lastChange.endOffset + str.length ≤ cur + str.length
          omega
      · have hstep : mergeStep (lastChange :: rest, cur) (DiffAction.delete, str)
            = (⟨cur, cur + str.length, []⟩ :: lastChange :: rest, cur + str.length) := by
          simp [mergeStep, hend]
        rw [hstep]
        refine ⟨?_, ?_, ?_⟩
        · intro c hc
          rcases List.mem_cons.mp hc with h | h
          · subst h
            show cur ≤ cur + str.length
            omega
          · exact wf c h
        · rw [List.chain'_cons']
          refine ⟨fun y hy => ?_, sep⟩
          simp only [List.head?_cons, Option.mem_def, Option.some.injEq] at hy
          subst hy
          have h1 := lastLe lastChange rfl
          show lastChange.endOffset < cur
          omega
        · intro c hc
          simp only [List.head?_cons, Option.some.injEq] at hc
          subst hc
          show cur + str.length ≤ cur + str.length
          omega
  | insert =>
    cases cs with
    | nil =>
      refine ⟨?_, ?_, ?_⟩
      · intro c hc
        simp only [mergeStep, List.mem_singleton] at hc
        subst hc
        show cur ≤ cur
        omega
      · simp [mergeStep]
      · intro c hc
        simp only [mergeStep, List.head?_cons, Option.some.injEq] at hc
        subst hc
        show cur ≤ cur
        omega
    | cons lastChange rest =>
      by_cases hend : lastChange.endOffset = cur
      · have hstep : mergeStep (lastChange :: rest, cur) (DiffAction.insert, str)
            = ({ lastChange with newText := lastChange.newText ++ str } :: rest, cur) := by
          simp [mergeStep, hend]
        rw [hstep]
        refine ⟨?_, ?_, ?_⟩
        · intro c hc
          rcases List.mem_cons.mp hc with h | h
          · subst h
            exact wf lastChange (by simp)
          · exact wf c (by simp [h])
        · rw [List.chain'_cons'] at sep ⊢
          exact ⟨fun y hy => sep.1 y hy, sep.2⟩
        · intro c hc
          simp only [List.head?_cons, Option.some.injEq] at hc
          subst hc
          exact lastLe lastChange rfl
      · have hstep : mergeStep (lastChange :: rest, cur) (DiffAction.insert, str)
            = (⟨cur, cur, str⟩ :: lastChange :: rest, cur) := by
          simp [mergeStep, hend]
        rw [hstep]
        refine ⟨?_, ?_, ?_⟩
        · intro c hc
          rcases List.mem_cons.mp hc with h | h
          · subst h
            show cur ≤ cur
            omega
          · exact wf c h
        · rw [List.chain'_cons']
          refine ⟨fun y hy => ?_, sep⟩
          simp only [List.head?_cons, Option.mem_def, Option.some.injEq] at hy
          subst hy
          have h1 := lastLe lastChange rfl
          show lastChange.endOffset < cur
          omega
        · intro c hc
          simp only [List.head?_cons, Option.some.injEq] at hc
          subst hc
          show cur ≤ cur
          omega

theorem mergeInv_foldl (spans : List Span) (st : List Change × Nat)
    (h : MergeInv st) : MergeInv (spans.foldl mergeStep st) := by
  induction spans generalizing st with
  | nil => exact h
  | cons sp spans ih => exact ih _ (mergeInv_step _ _ h)

theorem mergeInv_init : MergeInv ([], 0) := by
  refine ⟨?_, ?_, ?_⟩ <;> simp

/-- Equal-only span lists never create a change. -/
theorem mergeChanges_all_equal_aux (spans : List Span) (cur : Nat)
    (h : ∀ sp ∈ spans, sp.1 = DiffAction.equal) :
    (spans.foldl mergeStep ([], cur)).1 = [] := by
  induction spans generalizing cur with
  | nil => rfl
  | cons sp spans ih =>
    obtain ⟨act, str⟩ := sp
    have hact : act = DiffAction.equal := h (act, str) (List.mem_cons_self _ _)
    subst hact
    exact ih _ fun sp hsp => h sp (List.mem_cons_of_mem _ hsp)

theorem commonPrefix_nil_right (a : List Char) : commonPrefix a [] = [] := by
  cases a <;> rfl

/-- In a separated chain whose elements are well formed, the head ends
strictly before every later change starts. -/
theorem sep_head_lt (x : Change) (l : List Change)
    (hwf : ∀ c ∈ l, c.start ≤ c.endOffset)
    (hc : (x :: l).Chain' fun c1 c2 => c1.endOffset < c2.start) :
    ∀ b ∈ l, x.endOffset < b.start := by
  induction l generalizing x with
  | nil => simp
  | cons y l ih =>
    intro b hb
    rw [List.chain'_cons] at hc
    rcases List.mem_cons.mp hb with rfl | hb'
    · exact hc.1
    · have hy := ih y (fun c h => hwf c (List.mem_cons_of_mem _ h)) hc.2 b hb'
      have := hwf y (List.mem_cons_self _ _)
      omega

/-- Strict separation of consecutive changes extends to all pairs. -/
theorem chain_sep_pairwise (l : List Change)
    (hwf : ∀ c ∈ l, c.start ≤ c.endOffset)
    (hc : l.Chain' fun c1 c2 => c1.endOffset < c2.start) :
    l.Pairwise fun c1 c2 => c1.endOffset < c2.start := by
  induction l with
  | nil => simp
  | cons a l ih =>
    rw [List.pairwise_cons]
    rw [List.chain'_cons'] at hc
    refine ⟨sep_head_lt a l (fun c h => hwf c (List.mem_cons_of_mem _ h)) ?_, ?_⟩
    · rw [List.chain'_cons']
      exact hc
    · exact ih (fun c h => hwf c (List.mem_cons_of_mem _ h)) hc.2

/-- Diffing a nonempty text against the empty text is a single delete
of the whole text. -/
theorem fastDiff_nil_right (a : List Char) (ha : a ≠ []) :
    fastDiff a [] = [(DiffAction.delete, a)] := by
  have hne : a.isEmpty = false := by
    cases a with
    | nil => exact absurd rfl ha
    | cons c cs => rfl
  unfold fastDiff
  rw [if_neg ha]
  simp [commonSuffix, commonPrefix_nil_right, hne]

/-- Any whitespace-only leading decomposition is at most as long as the
greedy one. -/
theorem takeWhile_maximal (p : Char → Bool) :
    ∀ (pre l : List Char), pre <+: l → (∀ c ∈ pre, p c = true) →
      pre.length ≤ (l.takeWhile p).length := by
  intro pre
  induction pre with
  | nil => intro l _ _; exact Nat.zero_le _
  | cons c pre ih =>
    intro l hpre hws
    obtain ⟨t, ht⟩ := hpre
    subst ht
    have hc : p c = true := hws c (List.mem_cons_self _ _)
    simp only [List.cons_append, List.takeWhile_cons, hc, if_true, List.length_cons]
    exact Nat.succ_le_succ
      (ih (pre ++ t) ⟨t, rfl⟩ fun d hd => hws d (List.mem_cons_of_mem _ hd))

/-- Calling `next()` never changes the message queue. -/
theorem next_queue {P V E : Type} (s : QueueState P V E) :
    (next s).queue = s.queue := by
  unfold next
  split <;> rfl

/-- Calling `next()` is the identity as soon as a timer is pending or the queue is
empty. -/
theorem next_fixed {P V E : Type} (s : QueueState P V E)
    (h : s.timerSet = true ∨ s.queue = []) : next s = s := by
  unfold next
  rcases h with h | h <;> simp [h]

/-- Running `popQueue` always removes exactly the head message. -/
theorem popQueue_fst_queue {P V E : Type} (s : QueueState P V E) :
    (popQueue s).1.queue = s.queue.tail := by
  obtain ⟨queue, rh, nh, t, a⟩ := s
  cases queue with
  | nil => rfl
  | cons m rest =>
    cases m with
    | request req =>
      show (popQueue ⟨Message.request req :: rest, rh, nh, t, a⟩).1.queue = rest
      unfold popQueue
      dsimp only
      by_cases htok : req.token = some true
      · simp [htok]
      · rw [if_neg htok]
        cases hl : List.lookup req.method rh with
        | none => simp [hl]
        | some reg =>
          simp only [hl]
          by_cases hv : req.documentVersion ≠ reg.versionLens req.param
          · simp [hv]
          · simp [hv, next_queue]
    | notification n =>
      show (popQueue ⟨Message.notification n :: rest, rh, nh, t, a⟩).1.queue = rest
      unfold popQueue
      dsimp only
      cases hl : List.lookup n.method nh with
      | none => simp [hl]
      | some reg =>
        simp only [hl]
        by_cases hv : n.documentVersion ≠ reg.versionLens n.param
        · simp [hv]
        · simp [hv, next_queue]

/-- The drained messages followed by what is still queued are exactly the
initial queue followed by the arrivals, in order. -/
theorem runOps_invariant {P V E : Type} (ops : List (Op P))
    (s : QueueState P V E) :
    (runOps s ops).2 ++ (runOps s ops).1.queue = s.queue ++ enqueuedMessages ops := by
  induction ops generalizing s with
  | nil => simp [runOps, enqueuedMessages]
  | cons op ops ih =>
    cases op with
    | enqueue m =>
      show (runOps (enqueue s m) ops).2 ++ (runOps (enqueue s m) ops).1.queue
          = s.queue ++ m :: enqueuedMessages ops
      rw [ih (enqueue s m)]
      show (next { s with queue := s.queue ++ [m] }).queue ++ enqueuedMessages ops
          = s.queue ++ m :: enqueuedMessages ops
      rw [next_queue]
      simp
    | drain =>
      show (runOps s (Op.drain :: ops)).2 ++ (runOps s (Op.drain :: ops)).1.queue
          = s.queue ++ enqueuedMessages ops
      unfold runOps
      by_cases ht : s.timerSet
      · simp only [ht, if_true]
        rw [List.append_assoc, ih]
        rw [popQueue_fst_queue]
        show s.queue.head?.toList ++ (({ s with timerSet := false } :
            QueueState P V E).queue.tail ++ enqueuedMessages ops)
          = s.queue ++ enqueuedMessages ops
        rw [← List.append_assoc]
        cases s.queue with
        | nil => simp
        | cons m rest => simp
      · simp only [ht, if_false]
        exact ih s

/-! ## Claim theorems -/

/-- C3: feeding `autoFix` the diff spans equal("123"), delete("456"),
equal("789"), insert("012"), equal("345"), delete("678"), insert("901"),
delete("234"), insert("567") over before = "123456789345678234" produces
exactly three edits in order: the deletion [3,6), the insertion of "012" at 9,
and the replacement of [12,18) by "901567" — a delete followed by an insert at
the same offset, and the delete-insert-delete-insert run, each collapse into
one merged edit. -/
theorem autoFix_merge_example :
    autoFix (fun _ _ =>
        [(DiffAction.equal, "123".toList), (.delete, "456".toList),
         (.equal, "789".toList), (.insert, "012".toList),
         (.equal, "345".toList), (.delete, "678".toList),
         (.insert, "901".toList), (.delete, "234".toList),
         (.insert, "567".toList)])
      "123456789345678234".toList "123789012345901567".toList false
    = [⟨3, 6, []⟩, ⟨9, 9, "012".toList⟩, ⟨12, 18, "901567".toList⟩] := by
  decide

/-- C6: for every span sequence fed to the merge loop, each produced change
satisfies start ≤ end and the change list (which is ordered by nondecreasing
start) is pairwise strictly separated: every earlier change ends strictly
before every later change starts, so no two edit ranges overlap or touch —
adjacent opposite-type spans at one offset having been merged into a single
change. -/
theorem mergeChanges_wellFormed_separated (spans : List Span) :
    (∀ c ∈ mergeChanges spans, c.start ≤ c.endOffset) ∧
    (mergeChanges spans).Pairwise fun c1 c2 => c1.endOffset < c2.start := by
  have h := mergeInv_foldl spans ([], 0) mergeInv_init
  have hwf : ∀ c ∈ mergeChanges spans, c.start ≤ c.endOffset := by
    intro c hc
    exact h.wf c (by simpa [mergeChanges] using hc)
  have hchain : (mergeChanges spans).Chain' fun c1 c2 => c1.endOffset < c2.start := by
    show ((spans.foldl mergeStep ([], 0)).1.reverse).Chain' _
    rw [List.chain'_reverse]
    exact h.sep
  exact ⟨hwf, chain_sep_pairwise _ hwf hchain⟩

/-- C7: reconciliation no-ops — an `ignored` linter result returns no edits
independently of the diff primitive (it is never consulted); equal
before/after texts yield no edits; an all-equal span sequence yields no edits;
and an empty fixed output yields exactly one edit deleting the whole
document. -/
theorem autoFix_noop_reconciliation (a : List Char) :
    (∀ diff b, autoFix diff a b true = []) ∧
    autoFix fastDiff a a false = [] ∧
    (∀ spans, (∀ sp ∈ spans, sp.1 = DiffAction.equal) → mergeChanges spans = []) ∧
    (a ≠ [] → autoFix fastDiff a [] false = [⟨0, a.length, []⟩]) := by
  have hall : ∀ spans, (∀ sp ∈ spans, sp.1 = DiffAction.equal) →
      mergeChanges spans = [] := by
    intro spans hsp
    show ((spans.foldl mergeStep ([], 0)).1).reverse = []
    rw [mergeChanges_all_equal_aux spans 0 hsp]
    rfl
  refine ⟨fun diff b => rfl, ?_, hall, ?_⟩
  · show mergeChanges (fastDiff a a) = []
    have hd : fastDiff a a = if a.isEmpty then [] else [(.equal, a)] := by
      unfold fastDiff
      rw [if_pos rfl]
    rw [hd]
    by_cases he : a.isEmpty
    · rw [if_pos he]
      rfl
    · rw [if_neg he]
      exact hall _ (by simp)
  · intro ha
    show mergeChanges (fastDiff a []) = _
    rw [fastDiff_nil_right a ha]
    show ([⟨0, 0 + a.length, []⟩] : List Change).reverse = _
    simp

/-- Witness for C7 at a concrete document: "abc" with an empty fixed output
yields the single whole-document deletion. -/
theorem autoFix_noop_reconciliation_witness :
    autoFix fastDiff "abc".toList [] false = [⟨0, ("abc".toList).length, []⟩] :=
  (autoFix_noop_reconciliation "abc".toList).2.2.2 (by decide)

/-- C10: `line.match(/^\s*/)` always succeeds (the non-null cast is safe), and
`getIndent` returns exactly the maximal leading-whitespace prefix of its
input: a whitespace-only prefix no shorter than any other whitespace-only
prefix, empty whenever the input starts with a non-whitespace character (and
for the empty input, as the prefix of `[]`). -/
theorem getIndent_maximal_whitespace (line : List Char) :
    (jsMatchLeadingWhitespace line).isSome = true ∧
    getIndent line <+: line ∧
    (∀ c ∈ getIndent line, isJsWhitespace c = true) ∧
    (∀ pre, pre <+: line → (∀ c ∈ pre, isJsWhitespace c = true) →
      pre.length ≤ (getIndent line).length) ∧
    (∀ c cs, line = c :: cs → isJsWhitespace c = false → getIndent line = []) := by
  have hind : getIndent line = line.takeWhile isJsWhitespace := rfl
  refine ⟨rfl, ?_, ?_, ?_, ?_⟩
  · rw [hind]
    exact ⟨line.dropWhile isJsWhitespace, List.takeWhile_append_dropWhile _ _⟩
  · intro c hc
    rw [hind] at hc
    exact List.mem_takeWhile_imp hc
  · intro pre hp hws
    rw [hind]
    exact takeWhile_maximal _ pre line hp hws
  · intro c cs hl hc
    subst hl
    rw [hind]
    simp [List.takeWhile_cons, hc]

/-- Witness for C10 at concrete lines: two leading spaces are fully captured,
a single-space prefix is no longer than the indent, and a line starting with a
printable character has empty indent. -/
theorem getIndent_maximal_whitespace_witness :
    getIndent "  ab".toList <+: "  ab".toList ∧
    ([' '] : List Char).length ≤ (getIndent "  ab".toList).length ∧
    getIndent "x".toList = [] := by
  refine ⟨(getIndent_maximal_whitespace "  ab".toList).2.1, ?_, ?_⟩
  · exact (getIndent_maximal_whitespace "  ab".toList).2.2.2.1 [' ']
      ⟨[' ', 'a', 'b'], by decide⟩ (by decide)
  · exact (getIndent_maximal_whitespace "x".toList).2.2.2.2 'x' [] (by decide)
      (by decide)

/-- C1: a superseded head message never reaches its registered handler at
drain time: a request whose token is already triggered is rejected with the
`RequestCancelled` `ResponseError` regardless of its version (cancellation
precedence), a request whose captured `documentVersion` differs from the
registered version lens applied to its own param is rejected the same way,
and such a notification is dropped with no observable outcome. -/
theorem popQueue_superseded_never_runs_handler (P V E : Type)
    (s : QueueState P V E) :
    (∀ req rest, s.queue = Message.request req :: rest →
      ((req.token = some true →
          (popQueue s).2 = rejectedCancelledOutcome) ∧
        (∀ reg, s.requestHandlers.lookup req.method = some reg →
          req.documentVersion ≠ reg.versionLens req.param →
          (popQueue s).2 = rejectedCancelledOutcome))) ∧
    (∀ n rest, s.queue = Message.notification n :: rest →
      ∀ reg, s.notificationHandlers.lookup n.method = some reg →
      n.documentVersion ≠ reg.versionLens n.param →
      (popQueue s).2 = silentOutcome) := by
  obtain ⟨queue, rh, nh, t, a⟩ := s
  constructor
  · intro req rest hq
    simp only at hq
    subst hq
    constructor
    · intro htok
      unfold popQueue
      dsimp only
      rw [if_pos htok]
      rfl
    · intro reg hreg hv
      simp only at hreg
      by_cases htok : req.token = some true
      · unfold popQueue
        dsimp only
        rw [if_pos htok]
        rfl
      · unfold popQueue
        dsimp only
        rw [if_neg htok, hreg]
        dsimp only
        rw [if_pos hv]
        rfl
  · intro n rest hq reg hreg hv
    simp only at hq hreg
    subst hq
    unfold popQueue
    dsimp only
    rw [hreg]
    dsimp only
    rw [if_pos hv]

/-- Witness for C1: the cancelled-token request (with current version), the
stale-version request, and the stale-version notification of the concrete
states receive exactly the claimed outcomes. -/
theorem popQueue_superseded_never_runs_handler_witness :
    (popQueue cancelledHeadState).2 = rejectedCancelledOutcome ∧
    (popQueue staleHeadState).2 = rejectedCancelledOutcome ∧
    (popQueue staleNotificationState).2 = silentOutcome := by
  refine ⟨?_, ?_, ?_⟩
  · exact ((popQueue_superseded_never_runs_handler Int Int String
      cancelledHeadState).1 ⟨"m", 0, 1, some true⟩
      [Message.notification ⟨"n", 0, 1⟩] rfl).1 rfl
  · exact ((popQueue_superseded_never_runs_handler Int Int String
      staleHeadState).1 ⟨"m", 0, 0, none⟩ [] rfl).2 exampleReg rfl (by decide)
  · exact (popQueue_superseded_never_runs_handler Int Int String
      staleNotificationState).2 ⟨"n", 0, 0⟩ [] rfl exampleNotifReg rfl (by decide)

/-- C2 (code bug): after `popQueue` rejects the cancelled head request of
`cancelledHeadState`, a notification is still queued yet no drain callback is
armed or pending — firing the (absent) timer does nothing — so the remaining
message cannot drain without a further enqueue.  The source's early `return`
statements (src/buffered-message-queue.ts lines 248, 254, 266, 287, 293) skip
the final `this.next()`, while the repository's own tests
(`buffered-message-queue.test.ts`, "rejects if request has been cancelled" and
"rejects if outdated version") assert `expect(next).toHaveBeenCalled()` after
exactly these rejections. -/
theorem popQueue_reject_skips_retrigger :
    (popQueue cancelledHeadState).2.completion
        = some (.rejectedResponseError requestCancelledError) ∧
    (popQueue cancelledHeadState).1.queue ≠ [] ∧
    (popQueue cancelledHeadState).1.timerSet = false ∧
    (popQueue cancelledHeadState).1.armCount = 0 ∧
    fireTimer (popQueue cancelledHeadState).1
      = ((popQueue cancelledHeadState).1, silentOutcome) := by
  refine ⟨by decide, by decide, by decide, by decide, rfl⟩

/-- C4 counterexample: the drained request of `unregisteredHeadState` — whose
method has no registration and whose token is not cancelled — receives no
completion at all: neither its resolve nor its reject callback is ever
invoked, contradicting the claim that exactly one of them is always
invoked. -/
theorem popQueue_unregistered_request_never_settles :
    (popQueue unregisteredHeadState).2.completion = none ∧
    (popQueue unregisteredHeadState).1.queue = [] := by
  decide

/-- C4 amended: a drain step delivers at most one completion to the removed
request (the outcome holds at most one settlement), and it delivers exactly
one iff the request's token is already cancelled or a handler is registered
for its method; with neither, resolve and reject are both never invoked and
the request's promise never settles. -/
theorem popQueue_request_settles_iff (P V E : Type) (s : QueueState P V E)
    (req : Request P) (rest : List (Message P))
    (hq : s.queue = Message.request req :: rest) :
    (popQueue s).2.completion.isSome = true ↔
      req.token = some true ∨
        ∃ reg, s.requestHandlers.lookup req.method = some reg := by
  obtain ⟨queue, rh, nh, t, a⟩ := s
  simp only at hq
  subst hq
  by_cases htok : req.token = some true
  · unfold popQueue
    dsimp only
    rw [if_pos htok]
    simp [htok]
  · unfold popQueue
    dsimp only
    rw [if_neg htok]
    cases hl : List.lookup req.method rh with
    | none =>
      dsimp only
      simp [silentOutcome, htok, hl]
    | some reg =>
      dsimp only
      by_cases hv : req.documentVersion ≠ reg.versionLens req.param
      · rw [if_pos hv]
        simp
      · rw [if_neg hv]
        simp

/-- Witness for C4's amended theorem: the stale-version request of
`staleHeadState` has a registration, so it settles (by rejection). -/
theorem popQueue_request_settles_iff_witness :
    (popQueue staleHeadState).2.completion.isSome = true :=
  (popQueue_request_settles_iff Int Int String staleHeadState
    ⟨"m", 0, 0, none⟩ [] rfl).mpr (Or.inr ⟨exampleReg, rfl⟩)

/-- C5: starting from an idle empty queue, for any history mixing enqueues
and drain firings, the drained messages followed by the messages still queued
are exactly the enqueued messages in arrival order — so removal and the
execute/reject/drop decision happen in strict FIFO arrival order, each
message's position is fixed at enqueue time, and nothing reorders it. -/
theorem runOps_fifo (P V E : Type)
    (reqH : List (String × RequestRegistration P V E))
    (notH : List (String × NotificationRegistration P))
    (ops : List (Op P)) :
    (runOps (⟨[], reqH, notH, false, 0⟩ : QueueState P V E) ops).2
        ++ (runOps (⟨[], reqH, notH, false, 0⟩ : QueueState P V E) ops).1.queue
      = enqueuedMessages ops := by
  have h := runOps_invariant ops (⟨[], reqH, notH, false, 0⟩ : QueueState P V E)
  simpa using h

/-- C8: when the linter throws for a uri not yet marked failed, the call logs
the error, marks the uri failed and returns the empty result
`{errored: true, output: "", results: []}`; every call for a uri already
marked failed returns that empty result without invoking the linter and
without changing the state; and `clearFailedDocuments` resets the failed
set. -/
theorem lintFunc_failure_memoised (uri : String) (st : SettingsState)
    (e : String) (h : uri ∉ st.failedDocuments) :
    ((lintFunc uri st (.throws e)).logged = true ∧
      (lintFunc uri st (.throws e)).linterCalled = true ∧
      (lintFunc uri st (.throws e)).result = emptyLintResult ∧
      uri ∈ (lintFunc uri st (.throws e)).state.failedDocuments) ∧
    (∀ st' b, uri ∈ st'.failedDocuments →
      lintFunc uri st' b = skippedLintCall st') ∧
    (clearFailedDocuments (lintFunc uri st (.throws e)).state).failedDocuments
      = [] := by
  refine ⟨?_, ?_, rfl⟩
  · simp [lintFunc, h]
  · intro st' b hb
    simp [lintFunc, skippedLintCall, hb]

/-- Witness for C8: a fresh uri whose linter throws is logged and marked, and
the next attempt short-circuits without calling the linter. -/
theorem lintFunc_failure_memoised_witness :
    (lintFunc "file:///a.css" ⟨[]⟩ (.throws "boom")).logged = true ∧
    (lintFunc "file:///a.css"
        (lintFunc "file:///a.css" ⟨[]⟩ (.throws "boom")).state (.ok emptyLintResult))
      = skippedLintCall (lintFunc "file:///a.css" ⟨[]⟩ (.throws "boom")).state := by
  have h := lintFunc_failure_memoised "file:///a.css" ⟨[]⟩ "boom" (by simp)
  exact ⟨h.1.1, h.2.1 _ _ h.1.2.2.2⟩

/-- C9: `next()` (the schedule-drain operation) is idempotent — with a drain
callback already pending, any number N ≥ 1 of further calls leaves the state
unchanged, so exactly the one pending callback stays armed; with an empty
queue no callback is ever armed; and from an idle nonempty queue, N ≥ 1 calls
arm exactly one callback. -/
theorem next_idempotent_scheduling (P V E : Type) (s : QueueState P V E)
    (n : Nat) (hn : 1 ≤ n) :
    (s.timerSet = true → next^[n] s = s) ∧
    (s.queue = [] → next^[n] s = s) ∧
    (s.timerSet = false → s.queue ≠ [] →
      (next^[n] s).armCount = s.armCount + 1 ∧ (next^[n] s).timerSet = true) := by
  refine ⟨fun ht => Function.iterate_fixed (next_fixed s (Or.inl ht)) n,
    fun hq => Function.iterate_fixed (next_fixed s (Or.inr hq)) n, ?_⟩
  intro ht hq
  obtain ⟨m, rfl⟩ : ∃ m, n = m + 1 := ⟨n - 1, by omega⟩
  rw [Function.iterate_succ_apply]
  have hemp : s.queue.isEmpty = false := by
    cases hqq : s.queue with
    | nil => exact absurd hqq hq
    | cons x xs => rfl
  have hs : next s = { s with timerSet := true, armCount := s.armCount + 1 } := by
    unfold next
    rw [ht, hemp]
    rfl
  rw [hs, Function.iterate_fixed (next_fixed _ (Or.inl rfl)) m]
  exact ⟨rfl, rfl⟩

/-- Witness for C9: two successive calls on the idle nonempty
`unregisteredHeadState` arm exactly one callback. -/
theorem next_idempotent_scheduling_witness :
    (next^[2] unregisteredHeadState).armCount
        = unregisteredHeadState.armCount + 1 ∧
    (next^[2] unregisteredHeadState).timerSet = true :=
  (next_idempotent_scheduling Int Int String unregisteredHeadState 2
    (by decide)).2.2 rfl (by decide)

end StylelintLsp
